import Mathlib

/-!
Shallow embedding of the LyricSync transcription backend.

The cleaner (`src/services/text_processing.py`, class `TranscriptionCleaner`)
is embedded over `List Char`.  Each Python `re.sub` call is modelled by a
dedicated matcher together with a generic scan-and-replace driver that mirrors
`re.sub` semantics: the original characters are scanned left to right, at each
position the matcher reports the match starting there (if any), the
replacement is emitted and scanning resumes after the matched span of the
original string (replacements are never rescanned).

Character classes (`\s`, `\w`, `[a-zA-Z]`, case folding) are modelled over the
character repertoire appearing in the source patterns and in the inputs used
here: ASCII plus the two non-ASCII characters of the Italian credit pattern.
-/

namespace LyricSync

/-- Python regex `\s` / `str.strip` / `str.split` whitespace, over the
repertoire used in this development. -/
def isSpace (c : Char) : Bool :=
  c = ' ' || c = '\t' || c = '\n' || c = '\r' || c.toNat = 11 || c.toNat = 12 ||
    c.toNat = 160

/-- Python regex `\w` (word character), ASCII repertoire. -/
def isWordChar (c : Char) : Bool :=
  ('a' ≤ c && c ≤ 'z') || ('A' ≤ c && c ≤ 'Z') || ('0' ≤ c && c ≤ '9') || c = '_'

/-- The character class `[a-zA-Z]` of the trailing-letters pattern. -/
def isAsciiLetter (c : Char) : Bool :=
  ('a' ≤ c && c ≤ 'z') || ('A' ≤ c && c ≤ 'Z')

/-- Case folding used for `re.IGNORECASE`: ASCII letters plus the one
non-ASCII cased letter occurring in the credit patterns (U+00C3). -/
def pyLower (c : Char) : Char :=
  if 'A' ≤ c && c ≤ 'Z' then Char.ofNat (c.toNat + 32)
  else if c = 'Ã' then 'ã' else c

/-- One pass of `re.sub`.  `f prev s` reports a match starting at the current
position (`prev` is the character just before it, for `\b` tests) as
`(length, replacement)`.  The fuel is the input length; every accepted match
consumes at least one character, so the fuel never runs out on the matchers
used below (the guard only protects termination). -/
def substFuel (f : Option Char → List Char → Option (Nat × List Char)) :
    Nat → Option Char → List Char → List Char
  | 0, _, s => s
  | _ + 1, _, [] => []
  | fuel + 1, prev, c :: rest =>
    match f prev (c :: rest) with
    | some (n, repl) =>
      if 1 ≤ n && n ≤ rest.length + 1 then
        repl ++ substFuel f fuel (some ((c :: rest).getD (n - 1) c))
          (List.drop n (c :: rest))
      else c :: substFuel f fuel (some c) rest
    | none => c :: substFuel f fuel (some c) rest

/-- `re.sub(pattern, repl, s)` for the matcher `f`. -/
def pySub (f : Option Char → List Char → Option (Nat × List Char))
    (s : List Char) : List Char :=
  substFuel f s.length none s

/-- `pat` is a case-insensitive prefix of `s`. -/
def matchesCIAt : List Char → List Char → Bool
  | [], _ => true
  | _ :: _, [] => false
  | p :: ps, c :: cs => (pyLower p == pyLower c) && matchesCIAt ps cs

/-- `pat` is an exact prefix of `s`. -/
def matchesAt : List Char → List Char → Bool
  | [], _ => true
  | _ :: _, [] => false
  | p :: ps, c :: cs => (p == c) && matchesAt ps cs

/-- End offset of the earliest case-insensitive occurrence of `pat` in `s`:
the semantics of a lazy gap `.*?pat` under `re.DOTALL`. -/
def findCIEnd (pat : List Char) : List Char → Option Nat
  | [] => if pat.isEmpty then some 0 else none
  | c :: rest =>
    if matchesCIAt pat (c :: rest) then some pat.length
    else (findCIEnd pat rest).map (· + 1)

/-- Chain of lazy gaps: find each literal at its earliest position after the
previous one, returning the end offset of the last literal. -/
def chainFindEnd : List (List Char) → List Char → Nat → Option Nat
  | [], _, off => some off
  | p :: ps, s, off =>
    match findCIEnd p (List.drop off s) with
    | some e => chainFindEnd ps s (off + e)
    | none => none

/-- Matcher for one credit pattern `L₀.*?L₁.*?…​.*?qtss\.?` with flags
`IGNORECASE | DOTALL` and empty replacement: `L₀` matches at the current
position, each later literal is found lazily (earliest occurrence — a later
choice can never rescue a failing chain, since the search spaces only
shrink), and a directly following `.` is absorbed by the greedy `\.?`. -/
def creditTry (l0 : List Char) (mids : List (List Char)) :
    Option Char → List Char → Option (Nat × List Char) :=
  fun _ s =>
    if matchesCIAt l0 s then
      match chainFindEnd (mids ++ [['q', 't', 's', 's']]) s l0.length with
      | some e =>
        if (List.drop e s).head? = some '.' then some (e + 1, [])
        else some (e, [])
      | none => none
    else none

/-- Cumulative consumed lengths after each successive repetition of
`\s+tok` (case-insensitive when `ci`).  Inside a repetition the whitespace
run is forced maximal: taking fewer characters would place a whitespace
character where the token's word character must match. -/
def repEndsFuel (ci : Bool) (tok : List Char) : Nat → List Char → List Nat
  | 0, _ => []
  | fuel + 1, s =>
    let sp := s.takeWhile isSpace
    if sp.isEmpty then []
    else
      let s1 := List.drop sp.length s
      if (if ci then matchesCIAt tok s1 else matchesAt tok s1) then
        let k := sp.length + tok.length
        k :: (repEndsFuel ci tok fuel (List.drop tok.length s1)).map (· + k)
      else []

/-- Greedy repetition ends for `(?:\s+tok)*` starting at `s`. -/
def repEnds (ci : Bool) (tok s : List Char) : List Nat :=
  repEndsFuel ci tok s.length s

/-- `\b` after a word character: the next character is absent or non-word. -/
def noWordAhead (s : List Char) : Bool :=
  match s.head? with
  | none => true
  | some c => !isWordChar c

/-- Backtracking choice for `…(?:\s+\1){m,}\b`: starting from the greedy
maximum, drop repetitions until the count is still ≥ `m` and the position
after the last kept repetition is a word boundary.  `revEnds` is the list of
cumulative ends, newest first, `cnt` its length. -/
def pickBoundary (s : List Char) (wlen : Nat) :
    List Nat → Nat → Nat → Option Nat
  | [], _, _ => none
  | e :: es, cnt, m =>
    if m ≤ cnt && noWordAhead (List.drop (wlen + e) s) then some (wlen + e)
    else pickBoundary s wlen es (cnt - 1) m

/-- Backtracking choice for `…(?:\s+\1){m,}(?:\s|$)`: from the greedy
maximum, keep dropping repetitions until the tail starts with whitespace
(one whitespace character is consumed) or the input ends. -/
def pickSpaceEnd (s : List Char) (wlen : Nat) :
    List Nat → Nat → Nat → Option Nat
  | [], _, _ => none
  | e :: es, cnt, m =>
    if m ≤ cnt then
      match (List.drop (wlen + e) s).head? with
      | none => some (wlen + e)
      | some d =>
        if isSpace d then some (wlen + e + 1)
        else pickSpaceEnd s wlen es (cnt - 1) m
    else none

/-- `\b` before a word character: the previous character is absent or
non-word. -/
def atBoundary : Option Char → Bool
  | none => true
  | some p => !isWordChar p

def ruleAPick (s w : List Char) : Option Nat :=
  pickBoundary s w.length (repEnds true w (List.drop w.length s)).reverse
    (repEnds true w (List.drop w.length s)).length 10

/-- Matcher for `\b(\w{1,3})(?:\s+\1){10,}\b` (IGNORECASE), replacement `\1`.
The group can only capture a whole word of length ≤ 3: a proper prefix is
followed by a word character, where the mandatory `\s+` fails. -/
def ruleATry : Option Char → List Char → Option (Nat × List Char) :=
  fun prev s =>
    if atBoundary prev then
      if (s.takeWhile isWordChar).isEmpty || 3 < (s.takeWhile isWordChar).length then
        none
      else
        match ruleAPick s (s.takeWhile isWordChar) with
        | some n => some (n, s.takeWhile isWordChar)
        | none => none
    else none

/-- Cumulative consumed lengths for repetitions of `\1\s+` (a single exact
character followed by mandatory whitespace), as in the second repetition
pattern. -/
def bEndsFuel (c : Char) : Nat → List Char → List Nat
  | 0, _ => []
  | _ + 1, [] => []
  | fuel + 1, d :: rest =>
    if d == c then
      let sp := rest.takeWhile isSpace
      if sp.isEmpty then []
      else
        let k := 1 + sp.length
        k :: (bEndsFuel c fuel (List.drop sp.length rest)).map (· + k)
    else []

def bEnds (c : Char) (s : List Char) : List Nat := bEndsFuel c s.length s

/-- Matcher for `\b(\w)\s+(?:\1\s+){5,}` (no flags), replacement `\1 `.
Nothing follows the repetitions, so they are consumed greedily in full. -/
def ruleBTry : Option Char → List Char → Option (Nat × List Char) :=
  fun prev s =>
    if atBoundary prev then
      match s with
      | [] => none
      | c :: rest =>
        if !isWordChar c then none
        else if (rest.takeWhile isSpace).isEmpty then none
        else if (bEnds c (List.drop (rest.takeWhile isSpace).length rest)).length < 5 then
          none
        else
          some (1 + (rest.takeWhile isSpace).length +
            (bEnds c (List.drop (rest.takeWhile isSpace).length rest)).getLastD 0,
            [c, ' '])
    else none

def ruleCPick (s w : List Char) : Option Nat :=
  pickSpaceEnd s w.length (repEnds false w (List.drop w.length s)).reverse
    (repEnds false w (List.drop w.length s)).length 8

/-- Matcher for `\b(\w{1,4})(?:\s+\1){8,}(?:\s|$)` (no flags), replacement a
single space. -/
def ruleCTry : Option Char → List Char → Option (Nat × List Char) :=
  fun prev s =>
    if atBoundary prev then
      if (s.takeWhile isWordChar).isEmpty || 4 < (s.takeWhile isWordChar).length then
        none
      else
        match ruleCPick s (s.takeWhile isWordChar) with
        | some n => some (n, [' '])
        | none => none
    else none

/-- Matcher for `\s+` with replacement a single space. -/
def spacesTry : Option Char → List Char → Option (Nat × List Char) :=
  fun _ s =>
    if (s.takeWhile isSpace).isEmpty then none
    else some ((s.takeWhile isSpace).length, [' '])

/-- `TranscriptionCleaner._remove_subtitle_credits`: the six credit patterns,
applied in source order. -/
def remove_subtitle_credits (s : List Char) : List Char :=
  let s1 := pySub
    (creditTry "sottotitoli creati dalla comunitÃ  amara.org".data []) s
  let s2 := pySub
    (creditTry "subtitles created by".data ["community".data, "amara.org".data]) s1
  let s3 := pySub (creditTry "sottotitoli e revisione a cura di".data []) s2
  let s4 := pySub (creditTry "subtitles and revision by".data []) s3
  let s5 := pySub (creditTry "traduzione e adattamento".data []) s4
  pySub (creditTry "translation and adaptation".data []) s5

/-- `TranscriptionCleaner._remove_repetitive_patterns`: the three repetition
substitutions, applied in source order. -/
def remove_repetitive_patterns (s : List Char) : List Char :=
  pySub ruleCTry (pySub ruleBTry (pySub ruleATry s))

/-- Python `str.strip`. -/
def pyStrip (s : List Char) : List Char :=
  ((s.dropWhile fun c => isSpace c).reverse.dropWhile fun c => isSpace c).reverse

/-- Python `str.split` with no argument: split on whitespace runs, dropping
empty pieces. -/
def splitWsFuel : Nat → List Char → List (List Char)
  | 0, _ => []
  | _ + 1, [] => []
  | fuel + 1, c :: rest =>
    if isSpace c then splitWsFuel fuel rest
    else
      (c :: rest.takeWhile fun d => !isSpace d) ::
        splitWsFuel fuel (rest.dropWhile fun d => !isSpace d)

def splitWs (s : List Char) : List (List Char) := splitWsFuel s.length s

/-- Python `' '.join`. -/
def joinWords : List (List Char) → List Char
  | [] => []
  | [w] => w
  | w :: ws => w ++ ' ' :: joinWords ws

/-- The backwards loop of `_remove_trailing_repetitions`: how many times the
last word repeats consecutively at the very end of the word list. -/
def trailingCount (ws : List (List Char)) : Nat :=
  match ws.getLast? with
  | none => 0
  | some lw => (ws.reverse.takeWhile fun x => x == lw).length

/-- The conditional trim `words = words[:-repetition_count + 1]` followed by
`' '.join`, applied only when the trailing repetition count exceeds 5. -/
def trimTrailingWords (ws : List (List Char)) (text : List Char) : List Char :=
  if 5 < trailingCount ws then
    joinWords (ws.take (ws.length - trailingCount ws + 1))
  else text

/-- Does `\s+([a-zA-Z])(?:\s+\1){2,}\s*$` match starting exactly here (and
running to the end)?  Only the greedy-maximal repetition count can succeed:
with one repetition fewer, the remainder contains the letter again, which
`\s*$` cannot absorb. -/
def trailCheck (s : List Char) : Bool :=
  let sp := s.takeWhile isSpace
  if sp.isEmpty then false
  else
    match List.drop sp.length s with
    | [] => false
    | c :: rest =>
      if isAsciiLetter c then
        let ends := repEnds false [c] rest
        if 2 ≤ ends.length then (List.drop (ends.getLastD 0) rest).all isSpace
        else false
      else false

/-- Leftmost start position of the end-anchored trailing-letters match. -/
def findTrail : List Char → Option Nat
  | [] => none
  | c :: rest =>
    if trailCheck (c :: rest) then some 0 else (findTrail rest).map (· + 1)

/-- `re.sub(r'\s+([a-zA-Z])(?:\s+\1){2,}\s*$', '', text)`: the match, if any,
extends to the end of the string, so the substitution truncates there. -/
def removeTrailingSingles (s : List Char) : List Char :=
  match findTrail s with
  | some i => s.take i
  | none => s

/-- `TranscriptionCleaner._remove_trailing_repetitions`. -/
def remove_trailing_repetitions (text : List Char) : List Char :=
  if (splitWs (pyStrip text)).length ≤ 4 then text
  else removeTrailingSingles (trimTrailingWords (splitWs (pyStrip text)) text)

/-- `TranscriptionCleaner._cleanup_spaces`. -/
def cleanup_spaces (s : List Char) : List Char := pySub spacesTry s

/-- The pipeline body of `clean_text` on a non-empty string: credits,
repetitions, trailing repetitions, space normalisation, final `strip`. -/
def clean_list (s : List Char) : List Char :=
  pyStrip (cleanup_spaces (remove_trailing_repetitions
    (remove_repetitive_patterns (remove_subtitle_credits s))))

/-- `TranscriptionCleaner.clean_text`.  `if not text: return text` returns a
falsy input unchanged; the logging of removed characters has no effect on the
value.  Every operation used is total, mirroring that no step of the Python
function can raise. -/
def clean_text (s : String) : String :=
  if s.isEmpty then s else String.mk (clean_list s.data)

/-- `clean_text` including the `None` input accepted by the Python dynamic
signature (`not None` is falsy-branch material, so `None` is returned
unchanged). -/
def clean_text_opt : Option String → Option String
  | none => none
  | some s => some (clean_text s)

/-! ### Model manager (`src/models/whisper_manager.py`) and transcription
service (`src/services/transcription.py`)

`whisper.load_model` is the opaque external loader, modelled by a function
`String → Except String Nat` (success yields a fresh opaque handle
identifier, failure carries the exception message).  The manager's mutable
fields `_model` and `_model_size` form the state; a single `model` field
holds the current handle, so exactly one handle is recorded at a time.
The filesystem is the list of temporary-file paths currently on disk.
-/

inductive QualityLevel
  | fast
  | balanced
  | high
  | best
  deriving DecidableEq

inductive ModelSize
  | small
  | medium
  | large
  deriving DecidableEq

/-- `ModelSize` enum values from `src/core/config.py` (`LARGE = "large-v3"`). -/
def ModelSize.value : ModelSize → String
  | .small => "small"
  | .medium => "medium"
  | .large => "large-v3"

/-- The `quality_models` table of `load_quality_model`.  The dictionary is
total on the enum, so the `.get(quality, "base")` default is unreachable. -/
def qualityModels : QualityLevel → String
  | .fast => "tiny"
  | .balanced => "base"
  | .high => "small"
  | .best => "medium"

/-- The fields `_model` / `_model_size` of `WhisperModelManager`. -/
structure MgrState where
  model : Nat
  modelSize : String
  deriving DecidableEq

/-- `WhisperModelManager.load_quality_model`, returning the handle handed to
the caller together with the manager state afterwards.  The source returns
`whisper.load_model(...)` directly and never assigns `self._model` or
`self._model_size` in this method; on a load failure the exception is caught,
a warning logged, and `self._model` returned. -/
def load_quality_model (loader : String → Except String Nat) (st : MgrState)
    (quality : QualityLevel) (model_size : Option ModelSize) : Nat × MgrState :=
  let selected :=
    match model_size with
    | some ms => ms.value
    | none => qualityModels quality
  if selected ≠ st.modelSize then
    match loader selected with
    | .ok m => (m, st)
    | .error _ => (st.model, st)
  else (st.model, st)

/-- `WhisperModelManager.load_model_by_size` with its log records.  On a load
failure the exception is caught, the failure and the fallback are logged, and
the current model returned: the return type has no error channel, matching
the `except` that swallows the failure. -/
def load_model_by_size (loader : String → Except String Nat) (st : MgrState)
    (model_size : ModelSize) : (Nat × MgrState) × List String :=
  let name := model_size.value
  if name ≠ st.modelSize then
    match loader name with
    | .ok m =>
      ((m, ⟨m, name⟩),
        ["Loading " ++ name ++ " model",
         "Whisper model " ++ name ++ " loaded successfully"])
    | .error e =>
      ((st.model, st),
        ["Loading " ++ name ++ " model",
         "Failed to load " ++ name ++ " model: " ++ e,
         "Falling back to current model"])
  else ((st.model, st), [])

/-- Observable accelerator events of a transcription run, in order. -/
inductive Evt
  | emptyCache
  | logMem
  | transcribeCall
  deriving DecidableEq

/-- `WhisperModelManager.cleanup_gpu_memory`: `torch.cuda.empty_cache()`
followed by a memory log line, only on the cuda device. -/
def cleanup_gpu_memory (device : String) : List Evt :=
  if device = "cuda" then [.emptyCache, .logMem] else []

/-- Outcome of the opaque `model.transcribe(...)` call. -/
inductive TranscribeOutcome
  | ok (text : String)
  | fileNotFound (msg : String)
  | failure (msg : String)
  deriving DecidableEq

structure HTTPException where
  status : Nat
  detail : String
  deriving DecidableEq

/-- Substring test for the handler branch `"ffmpeg" in str(e).lower()`. -/
def hasInfixFfmpeg : List Char → Bool
  | [] => false
  | c :: rest => matchesAt "ffmpeg".data (c :: rest) || hasInfixFfmpeg rest

def containsFfmpeg (msg : String) : Bool :=
  hasInfixFfmpeg (msg.data.map pyLower)

/-- `TranscriptionService._perform_transcription`, recording the accelerator
events in order.  On cuda, `cleanup_gpu_memory` and a memory log run before
the call; the post-call log and cache clear sit inside the `try` after the
call and there is no `finally`, so on a failing `model.transcribe` they are
skipped and the exception is mapped to an `HTTPException`. -/
def perform_transcription (device : String) (outcome : TranscribeOutcome) :
    Except HTTPException String × List Evt :=
  let pre :=
    if device = "cuda" then cleanup_gpu_memory device ++ [Evt.logMem] else []
  match outcome with
  | .ok text =>
    let post :=
      if device = "cuda" then Evt.logMem :: cleanup_gpu_memory device else []
    (.ok text, pre ++ [Evt.transcribeCall] ++ post)
  | .fileNotFound _ =>
    (.error ⟨500, "FFmpeg is required but not found. Please install FFmpeg and ensure it is in your PATH. See documentation for setup instructions."⟩,
      pre ++ [Evt.transcribeCall])
  | .failure msg =>
    (.error
      (if containsFfmpeg msg then
        ⟨500, "FFmpeg error occurred. Please ensure FFmpeg is properly installed. See documentation for troubleshooting."⟩
      else ⟨500, "Transcription failed: " ++ msg⟩),
      pre ++ [Evt.transcribeCall])

/-- The body of `_create_temp_file` inside the `try`: `NamedTemporaryFile`
with `delete=False` puts the file on disk first, then the size ceiling is
checked and a 400 `HTTPException` ("File too large …", the MB figure of the
message is irrelevant and elided) raised when exceeded. -/
def create_temp_file_body (maxFileSize : Nat) (path : String)
    (content : List Nat) : Except HTTPException String :=
  if maxFileSize < content.length then
    .error ⟨400, "File too large"⟩
  else .ok path

/-- `_create_temp_file`: the `except Exception` wrapped around the body
catches every exception — including the 400 the body itself just raised —
and re-raises a generic 500.  The temporary file created by the body stays
on disk in either case (`delete=False`, and no cleanup here). -/
def create_temp_file (maxFileSize : Nat) (path : String) (content : List Nat)
    (fs : List String) : Except HTTPException String × List String :=
  let fs1 := path :: fs
  match create_temp_file_body maxFileSize path content with
  | .ok p => (.ok p, fs1)
  | .error _ => (.error ⟨500, "Failed to process uploaded file"⟩, fs1)

/-- `_cleanup_temp_file`: `os.unlink` guarded by `os.path.exists`; any
exception from the deletion is caught and only logged, so the function has
no error channel.  `unlinkFails` injects a failing `os.unlink`. -/
def cleanup_temp_file (unlinkFails : Bool) (path : String)
    (fs : List String) : List String :=
  if path ∈ fs then (if unlinkFails then fs else fs.erase path) else fs

/-- Per-request environment of `transcribe_file`: the validator verdict, the
configured ceiling, the fresh temporary path, the uploaded bytes, the
optional explicit model size, the quality, the device, the opaque
recognition outcome, and whether the final unlink fails. -/
structure RequestEnv where
  validateResult : Except HTTPException Unit
  maxFileSize : Nat
  tempPath : String
  content : List Nat
  modelSize : Option ModelSize
  quality : QualityLevel
  device : String
  outcome : TranscribeOutcome
  unlinkFails : Bool

/-- `TranscriptionService.transcribe_file`: validate, stage the temporary
file, resolve the model (by explicit size when given, else by quality),
transcribe, clean; the temporary file cleanup sits in a `finally` around
everything after staging.  A failure before the `try` (validation or
staging) returns without reaching that `finally`. -/
def transcribe_file (loader : String → Except String Nat) (env : RequestEnv)
    (st : MgrState) (fs : List String) :
    Except HTTPException String × List String × MgrState :=
  match env.validateResult with
  | .error e => (.error e, fs, st)
  | .ok _ =>
    match create_temp_file env.maxFileSize env.tempPath env.content fs with
    | (.error e, fs1) => (.error e, fs1, st)
    | (.ok path, fs1) =>
      let st1 :=
        match env.modelSize with
        | some ms => ((load_model_by_size loader st ms).1).2
        | none => (load_quality_model loader st env.quality none).2
      let body : Except HTTPException String :=
        match (perform_transcription env.device env.outcome).1 with
        | .error e => .error e
        | .ok raw => .ok (clean_text raw)
      let fs2 := cleanup_temp_file env.unlinkFails path fs1
      (body, fs2, st1)

/-! ## Helper lemmas -/

theorem dropWhile_length_le (p : Char → Bool) (l : List Char) :
    (l.dropWhile p).length ≤ l.length := by
  induction l with
  | nil => simp
  | cons c rest ih =>
    by_cases h : p c
    · simp only [List.dropWhile_cons, h, if_true]
      exact Nat.le_succ_of_le ih
    · simp [List.dropWhile_cons, h]

theorem takeWhile_length_le (p : Char → Bool) (l : List Char) :
    (l.takeWhile p).length ≤ l.length := by
  induction l with
  | nil => simp
  | cons c rest ih =>
    by_cases h : p c
    · simpa [List.takeWhile_cons, h] using ih
    · simp [List.takeWhile_cons, h]

theorem pyStrip_length_le (s : List Char) : (pyStrip s).length ≤ s.length := by
  unfold pyStrip
  calc ((s.dropWhile fun c => isSpace c).reverse.dropWhile
          fun c => isSpace c).reverse.length
      = ((s.dropWhile fun c => isSpace c).reverse.dropWhile
          fun c => isSpace c).length := List.length_reverse _
    _ ≤ (s.dropWhile fun c => isSpace c).reverse.length :=
        dropWhile_length_le _ _
    _ = (s.dropWhile fun c => isSpace c).length := List.length_reverse _
    _ ≤ s.length := dropWhile_length_le _ _

/-- A scan-and-replace pass never lengthens the text, provided every match
replaces at least as many characters as it emits. -/
theorem substFuel_length (f : Option Char → List Char → Option (Nat × List Char))
    (hb : ∀ prev s n r, f prev s = some (n, r) → r.length ≤ n) :
    ∀ (fuel : Nat) (prev : Option Char) (s : List Char),
      (substFuel f fuel prev s).length ≤ s.length := by
  intro fuel
  induction fuel with
  | zero => intro prev s; simp [substFuel]
  | succ g ih =>
    intro prev s
    match s with
    | [] => simp [substFuel]
    | c :: rest =>
      cases hf : f prev (c :: rest) with
      | none =>
        simp only [substFuel, hf, List.length_cons]
        exact Nat.succ_le_succ (ih _ rest)
      | some p =>
        obtain ⟨n, repl⟩ := p
        cases hg : (decide (1 ≤ n) && decide (n ≤ rest.length + 1)) with
        | false =>
          simp only [substFuel, hf, hg, Bool.false_eq_true, if_false,
            List.length_cons]
          exact Nat.succ_le_succ (ih _ rest)
        | true =>
          rw [Bool.and_eq_true, decide_eq_true_eq, decide_eq_true_eq] at hg
          have h1 : repl.length ≤ n := hb _ _ _ _ hf
          have h2 := ih (some ((c :: rest).getD (n - 1) c))
            (List.drop n (c :: rest))
          rw [List.length_drop] at h2
          simp only [substFuel, hf, Bool.and_eq_true, decide_eq_true_eq,
            hg.1, hg.2, and_self, if_true, List.length_append, List.length_cons]
          simp only [List.length_cons] at h2
          omega

theorem pySub_length (f : Option Char → List Char → Option (Nat × List Char))
    (hb : ∀ prev s n r, f prev s = some (n, r) → r.length ≤ n)
    (s : List Char) : (pySub f s).length ≤ s.length :=
  substFuel_length f hb s.length none s

theorem creditTry_bound (l0 : List Char) (mids : List (List Char))
    (prev : Option Char) (s : List Char) (n : Nat) (r : List Char)
    (h : creditTry l0 mids prev s = some (n, r)) : r.length ≤ n := by
  unfold creditTry at h
  cases hm : matchesCIAt l0 s <;> simp only [hm, Bool.false_eq_true, if_false,
    if_true] at h
  · cases h
  · cases hc : chainFindEnd (mids ++ [['q', 't', 's', 's']]) s l0.length with
    | none => rw [hc] at h; cases h
    | some e =>
      rw [hc] at h
      dsimp only at h
      by_cases hd : (List.drop e s).head? = some '.'
      · rw [if_pos hd] at h; cases h; simp
      · rw [if_neg hd] at h; cases h; simp

theorem pickBoundary_ge (s : List Char) (wlen : Nat) :
    ∀ (es : List Nat) (cnt m n : Nat),
      pickBoundary s wlen es cnt m = some n → wlen ≤ n := by
  intro es
  induction es with
  | nil => intro cnt m n h; cases h
  | cons e es ih =>
    intro cnt m n h
    unfold pickBoundary at h
    split at h
    · cases h; omega
    · exact ih _ _ _ h

theorem pickSpaceEnd_ge (s : List Char) (wlen : Nat) :
    ∀ (es : List Nat) (cnt m n : Nat),
      pickSpaceEnd s wlen es cnt m = some n → wlen ≤ n := by
  intro es
  induction es with
  | nil => intro cnt m n h; cases h
  | cons e es ih =>
    intro cnt m n h
    unfold pickSpaceEnd at h
    split at h
    · split at h
      · cases h; omega
      · split at h
        · cases h; omega
        · exact ih _ _ _ h
    · cases h

theorem ruleATry_bound (prev : Option Char) (s : List Char) (n : Nat)
    (r : List Char) (h : ruleATry prev s = some (n, r)) : r.length ≤ n := by
  unfold ruleATry at h
  cases hb : atBoundary prev <;> rw [hb] at h
  · simp only [Bool.false_eq_true, if_false] at h
    cases h
  · simp only [if_true] at h
    cases hw : ((s.takeWhile isWordChar).isEmpty ||
        decide (3 < (s.takeWhile isWordChar).length)) <;> rw [hw] at h
    · simp only [Bool.false_eq_true, if_false] at h
      cases hp : ruleAPick s (s.takeWhile isWordChar) <;> rw [hp] at h
      · cases h
      · cases h
        exact pickBoundary_ge _ _ _ _ _ _ hp
    · simp only [if_true] at h
      cases h

theorem ruleBTry_bound (prev : Option Char) (s : List Char) (n : Nat)
    (r : List Char) (h : ruleBTry prev s = some (n, r)) : r.length ≤ n := by
  unfold ruleBTry at h
  cases hb : atBoundary prev <;> rw [hb] at h
  · simp only [Bool.false_eq_true, if_false] at h
    cases h
  · simp only [if_true] at h
    cases s with
    | nil => cases h
    | cons c rest =>
      dsimp only at h
      cases hw : (!isWordChar c) <;> rw [hw] at h
      · simp only [Bool.false_eq_true, if_false] at h
        cases hsp : (rest.takeWhile isSpace).isEmpty <;> rw [hsp] at h
        · simp only [Bool.false_eq_true, if_false] at h
          by_cases hlen : (bEnds c
              (List.drop (rest.takeWhile isSpace).length rest)).length < 5
          · rw [if_pos hlen] at h; cases h
          · rw [if_neg hlen] at h
            cases h
            have : (rest.takeWhile isSpace).length ≠ 0 := by
              simpa [List.isEmpty_iff, List.length_eq_zero] using hsp
            simp only [List.length_cons, List.length_nil]
            omega
        · simp only [if_true] at h; cases h
      · simp only [if_true] at h; cases h

theorem ruleCTry_bound (prev : Option Char) (s : List Char) (n : Nat)
    (r : List Char) (h : ruleCTry prev s = some (n, r)) : r.length ≤ n := by
  unfold ruleCTry at h
  cases hb : atBoundary prev <;> rw [hb] at h
  · simp only [Bool.false_eq_true, if_false] at h
    cases h
  · simp only [if_true] at h
    cases hw : ((s.takeWhile isWordChar).isEmpty ||
        decide (4 < (s.takeWhile isWordChar).length)) <;> rw [hw] at h
    · simp only [Bool.false_eq_true, if_false] at h
      cases hp : ruleCPick s (s.takeWhile isWordChar) <;> rw [hp] at h
      · cases h
      · cases h
        have h1 := pickSpaceEnd_ge _ _ _ _ _ _ hp
        have h2 : (s.takeWhile isWordChar).length ≠ 0 := by
          have hw1 : (s.takeWhile isWordChar).isEmpty = false :=
            (Bool.or_eq_false_iff.mp hw).1
          simpa [List.isEmpty_iff, List.length_eq_zero] using hw1
        simp only [List.length_cons, List.length_nil]
        omega
    · simp only [if_true] at h
      cases h

theorem spacesTry_bound (prev : Option Char) (s : List Char) (n : Nat)
    (r : List Char) (h : spacesTry prev s = some (n, r)) : r.length ≤ n := by
  unfold spacesTry at h
  cases hsp : (s.takeWhile isSpace).isEmpty <;> rw [hsp] at h
  · simp only [Bool.false_eq_true, if_false] at h
    cases h
    have : (s.takeWhile isSpace).length ≠ 0 := by
      simpa [List.isEmpty_iff, List.length_eq_zero] using hsp
    simp only [List.length_cons, List.length_nil]
    omega
  · simp only [if_true] at h
    cases h

theorem remove_subtitle_credits_length_le (s : List Char) :
    (remove_subtitle_credits s).length ≤ s.length := by
  unfold remove_subtitle_credits
  refine le_trans (pySub_length _ (fun p t n r h => creditTry_bound _ _ p t n r h) _) ?_
  refine le_trans (pySub_length _ (fun p t n r h => creditTry_bound _ _ p t n r h) _) ?_
  refine le_trans (pySub_length _ (fun p t n r h => creditTry_bound _ _ p t n r h) _) ?_
  refine le_trans (pySub_length _ (fun p t n r h => creditTry_bound _ _ p t n r h) _) ?_
  refine le_trans (pySub_length _ (fun p t n r h => creditTry_bound _ _ p t n r h) _) ?_
  exact pySub_length _ (fun p t n r h => creditTry_bound _ _ p t n r h) _

theorem remove_repetitive_patterns_length_le (s : List Char) :
    (remove_repetitive_patterns s).length ≤ s.length := by
  unfold remove_repetitive_patterns
  refine le_trans (pySub_length _ ruleCTry_bound _) ?_
  refine le_trans (pySub_length _ ruleBTry_bound _) ?_
  exact pySub_length _ ruleATry_bound _

theorem cleanup_spaces_length_le (s : List Char) :
    (cleanup_spaces s).length ≤ s.length :=
  pySub_length _ spacesTry_bound _

theorem joinWords_cons_length (w : List Char) (ws : List (List Char)) :
    (joinWords (w :: ws)).length =
      w.length + (if ws.isEmpty then 0 else 1 + (joinWords ws).length) := by
  cases ws with
  | nil => simp [joinWords]
  | cons w2 ws2 =>
    simp only [joinWords, List.length_append, List.length_cons,
      List.isEmpty_cons, Bool.false_eq_true, if_false]
    omega

theorem joinWords_take_length_le (ws : List (List Char)) :
    ∀ k, (joinWords (ws.take k)).length ≤ (joinWords ws).length := by
  induction ws with
  | nil => intro k; simp
  | cons w ws ih =>
    intro k
    cases k with
    | zero => simp [joinWords]
    | succ k =>
      rw [List.take_succ_cons, joinWords_cons_length, joinWords_cons_length]
      cases ws with
      | nil => simp
      | cons w2 ws2 =>
        simp only [List.isEmpty_cons, Bool.false_eq_true, if_false]
        by_cases h : ((w2 :: ws2).take k).isEmpty
        · rw [if_pos h]; omega
        · rw [if_neg h]
          have := ih k
          omega

theorem dropWhile_head_not (p : Char → Bool) :
    ∀ (l : List Char) (d : Char) (t : List Char),
      l.dropWhile p = d :: t → p d = false := by
  intro l
  induction l with
  | nil => intro d t h; simp [List.dropWhile] at h
  | cons c rest ih =>
    intro d t h
    by_cases hc : p c = true
    · rw [List.dropWhile_cons, if_pos hc] at h
      exact ih _ _ h
    · rw [List.dropWhile_cons, if_neg hc] at h
      injection h with h1 h2
      subst h1
      simpa using hc

theorem splitWsFuel_join_length_le :
    ∀ (fuel : Nat) (s : List Char),
      (joinWords (splitWsFuel fuel s)).length ≤ s.length := by
  intro fuel
  induction fuel using Nat.strong_induction_on with
  | _ fuel ih =>
    match fuel with
    | 0 => intro s; simp [splitWsFuel, joinWords]
    | g + 1 =>
      intro s
      match s with
      | [] => simp [splitWsFuel, joinWords]
      | c :: rest =>
        by_cases hc : isSpace c = true
        · simp only [splitWsFuel, hc, if_true]
          exact le_trans (ih g (by omega) rest) (by simp)
        · simp only [splitWsFuel, hc, Bool.false_eq_true, if_false]
          rw [joinWords_cons_length]
          have hlen : (rest.takeWhile fun d => !isSpace d).length +
              (rest.dropWhile fun d => !isSpace d).length = rest.length := by
            have hsplit :=
              List.takeWhile_append_dropWhile (fun d => !isSpace d) rest
            rw [← List.length_append, hsplit]
          by_cases hdw :
              (splitWsFuel g (rest.dropWhile fun d => !isSpace d)).isEmpty
          · rw [if_pos hdw]
            simp only [List.length_cons]
            omega
          · rw [if_neg hdw]
            have hdwne : (rest.dropWhile fun d => !isSpace d) ≠ [] := by
              intro h0
              rw [h0] at hdw
              cases g <;> simp [splitWsFuel] at hdw
            obtain ⟨d, dw', hdweq⟩ :
                ∃ d dw', (rest.dropWhile fun d => !isSpace d) = d :: dw' := by
              cases hdq : (rest.dropWhile fun d => !isSpace d) with
              | nil => exact absurd hdq hdwne
              | cons d dw' => exact ⟨d, dw', rfl⟩
            have hd : isSpace d = true := by
              have := dropWhile_head_not (fun d => !isSpace d) rest d dw' hdweq
              simpa using this
            rw [hdweq] at hdw ⊢
            match g, hdw with
            | g' + 1, hdw =>
              simp only [splitWsFuel, hd, if_true] at hdw ⊢
              have hrec := ih g' (by omega) dw'
              have : dw'.length + 1 =
                  (rest.dropWhile fun d => !isSpace d).length := by
                rw [hdweq]; simp
              simp only [List.length_cons]
              omega

theorem trimTrailingWords_length_le (t : List Char) :
    (trimTrailingWords (splitWs (pyStrip t)) t).length ≤ t.length := by
  unfold trimTrailingWords
  by_cases h : 5 < trailingCount (splitWs (pyStrip t))
  · rw [if_pos h]
    calc (joinWords ((splitWs (pyStrip t)).take
            ((splitWs (pyStrip t)).length -
              trailingCount (splitWs (pyStrip t)) + 1))).length
        ≤ (joinWords (splitWs (pyStrip t))).length :=
          joinWords_take_length_le _ _
      _ ≤ (pyStrip t).length := splitWsFuel_join_length_le _ _
      _ ≤ t.length := pyStrip_length_le t
  · rw [if_neg h]

theorem removeTrailingSingles_length_le (s : List Char) :
    (removeTrailingSingles s).length ≤ s.length := by
  unfold removeTrailingSingles
  cases h : findTrail s with
  | none => exact le_refl _
  | some i =>
    rw [List.length_take]
    omega

theorem remove_trailing_repetitions_length_le (t : List Char) :
    (remove_trailing_repetitions t).length ≤ t.length := by
  unfold remove_trailing_repetitions
  by_cases h : (splitWs (pyStrip t)).length ≤ 4
  · rw [if_pos h]
  · rw [if_neg h]
    exact le_trans (removeTrailingSingles_length_le _)
      (trimTrailingWords_length_le t)

theorem clean_list_length_le (s : List Char) :
    (clean_list s).length ≤ s.length := by
  unfold clean_list
  refine le_trans (pyStrip_length_le _) ?_
  refine le_trans (cleanup_spaces_length_le _) ?_
  refine le_trans (remove_trailing_repetitions_length_le _) ?_
  exact le_trans (remove_repetitive_patterns_length_le _)
    (remove_subtitle_credits_length_le _)

theorem clean_text_length_le (s : String) :
    (clean_text s).length ≤ s.length := by
  unfold clean_text
  by_cases h : s.isEmpty
  · rw [if_pos h]
  · rw [if_neg h]
    show (clean_list s.data).length ≤ s.data.length
    exact clean_list_length_le s.data

/-! ## C2, C5: model-resolution state behaviour -/

/-- C2 counterexample: with a loader that succeeds, resolving quality `fast`
(default size "tiny") from recorded size "base" returns the freshly loaded
handle 7, yet the manager state — current handle and recorded size — is
unchanged; the claim demands the state become `⟨7, "tiny"⟩`. -/
theorem quality_resolution_no_update_cex :
    load_quality_model (fun _ => .ok 7) ⟨0, "base"⟩ QualityLevel.fast none =
      (7, ⟨0, "base"⟩) ∧
    (⟨0, "base"⟩ : MgrState).modelSize ≠ "tiny" := by
  refine ⟨rfl, by decide⟩

/-- C2 amended: `load_model_by_size` replaces the current handle and recorded
size on a successful load of a differing size and keeps both on a failed
load; `load_quality_model` never mutates the manager state — it only returns
the freshly loaded (or fallback) handle.  A single `model` field holds the
current handle, so exactly one handle is recorded at a time. -/
theorem model_resolution_state_spec (loader : String → Except String Nat)
    (st : MgrState) :
    (∀ ms m, ms.value ≠ st.modelSize → loader ms.value = .ok m →
      (load_model_by_size loader st ms).1 = (m, ⟨m, ms.value⟩)) ∧
    (∀ ms e, ms.value ≠ st.modelSize → loader ms.value = .error e →
      (load_model_by_size loader st ms).1 = (st.model, st)) ∧
    (∀ q osz, (load_quality_model loader st q osz).2 = st) := by
  refine ⟨?_, ?_, ?_⟩
  · intro ms m hne hok
    simp [load_model_by_size, hne, hok]
  · intro ms e hne herr
    simp [load_model_by_size, hne, herr]
  · intro q osz
    simp only [load_quality_model]
    split
    · split <;> rfl
    · rfl

theorem model_resolution_state_witness :
    (load_model_by_size (fun _ => .ok 5) ⟨1, "base"⟩ ModelSize.small).1 =
      (5, ⟨5, "small"⟩) ∧
    (load_model_by_size (fun _ => .error "no") ⟨1, "base"⟩ ModelSize.small).1 =
      (1, ⟨1, "base"⟩) ∧
    (load_quality_model (fun _ => .ok 5) ⟨1, "base"⟩ QualityLevel.best none).2 =
      ⟨1, "base"⟩ :=
  ⟨(model_resolution_state_spec _ _).1 ModelSize.small 5 (by decide) rfl,
   (model_resolution_state_spec _ _).2.1 ModelSize.small "no" (by decide) rfl,
   (model_resolution_state_spec _ _).2.2 QualityLevel.best none⟩

/-- C5: when the explicitly requested size differs from the recorded one and
its load fails, `load_model_by_size` returns the previous handle with the
manager state unchanged — the function has no error channel, so the request
proceeds — and the fallback is only logged. -/
theorem size_fallback_degraded (loader : String → Except String Nat)
    (st : MgrState) (ms : ModelSize) (e : String)
    (hdiff : ms.value ≠ st.modelSize) (hfail : loader ms.value = .error e) :
    (load_model_by_size loader st ms).1 = (st.model, st) ∧
    "Falling back to current model" ∈ (load_model_by_size loader st ms).2 := by
  simp [load_model_by_size, hdiff, hfail]

theorem size_fallback_witness :
    (load_model_by_size (fun _ => .error "boom") ⟨3, "base"⟩ ModelSize.medium).1 =
      (3, ⟨3, "base"⟩) ∧
    "Falling back to current model" ∈
      (load_model_by_size (fun _ => .error "boom") ⟨3, "base"⟩
        ModelSize.medium).2 :=
  size_fallback_degraded _ _ _ _ (by decide) rfl

/-! ## C3: accelerator cache-clear bracketing -/

/-- C3 counterexample: on the cuda device with a failing recognition call,
the full event trace carries exactly one cache clear, the pre-call one; no
cache clear follows the call, refuting "the post-step executes on every exit
path". -/
theorem cuda_post_clear_skipped_cex :
    (perform_transcription "cuda" (.failure "disk error")).2 =
      [Evt.emptyCache, Evt.logMem, Evt.logMem, Evt.transcribeCall] ∧
    ((perform_transcription "cuda" (.failure "disk error")).2.count
      Evt.emptyCache) = 1 := by
  exact ⟨rfl, rfl⟩

/-- C3 amended: on the cuda device the cache clear always runs before the
recognition call; the post-call cache clear runs only when the call
succeeds, and is skipped on both failure paths. -/
theorem cuda_cache_clear_spec (outcome : TranscribeOutcome) :
    (∀ t, outcome = TranscribeOutcome.ok t →
      (perform_transcription "cuda" outcome).2 =
        [Evt.emptyCache, Evt.logMem, Evt.logMem, Evt.transcribeCall,
         Evt.logMem, Evt.emptyCache, Evt.logMem]) ∧
    (∀ m, outcome = TranscribeOutcome.fileNotFound m →
      (perform_transcription "cuda" outcome).2 =
        [Evt.emptyCache, Evt.logMem, Evt.logMem, Evt.transcribeCall]) ∧
    (∀ m, outcome = TranscribeOutcome.failure m →
      (perform_transcription "cuda" outcome).2 =
        [Evt.emptyCache, Evt.logMem, Evt.logMem, Evt.transcribeCall]) := by
  refine ⟨?_, ?_, ?_⟩ <;> rintro x h <;> subst h <;> rfl

theorem cuda_cache_clear_witness :
    (perform_transcription "cuda" (TranscribeOutcome.ok "hello")).2 =
      [Evt.emptyCache, Evt.logMem, Evt.logMem, Evt.transcribeCall,
       Evt.logMem, Evt.emptyCache, Evt.logMem] ∧
    (perform_transcription "cuda" (TranscribeOutcome.failure "x")).2 =
      [Evt.emptyCache, Evt.logMem, Evt.logMem, Evt.transcribeCall] :=
  ⟨(cuda_cache_clear_spec _).1 "hello" rfl,
   (cuda_cache_clear_spec _).2.2 "x" rfl⟩

/-! ## C1: oversized payload staging -/

/-- C1 (code bug): the body of `_create_temp_file` does raise a 400
"File too large" for an oversized payload, but the enclosing blanket
`except Exception` catches it and re-raises a generic 500, and the
temporary file created with `delete=False` before the size check stays on
disk — `transcribe_file`'s cleanup `finally` is never entered because the
staging call raises before the `try`.  So the request fails with the
generic 500, not the payload-too-large failure, and a temporary asset
remains. -/
theorem oversize_staging_masked_and_leaks (loader : String → Except String Nat)
    (env : RequestEnv) (st : MgrState) (fs : List String)
    (hval : env.validateResult = .ok ())
    (hsize : env.maxFileSize < env.content.length) :
    (transcribe_file loader env st fs).1 =
      .error ⟨500, "Failed to process uploaded file"⟩ ∧
    env.tempPath ∈ (transcribe_file loader env st fs).2.1 := by
  have h : create_temp_file env.maxFileSize env.tempPath env.content fs =
      (.error ⟨500, "Failed to process uploaded file"⟩, env.tempPath :: fs) := by
    simp [create_temp_file, create_temp_file_body, hsize]
  simp [transcribe_file, hval, h]

theorem oversize_staging_witness :
    (transcribe_file (fun _ => .ok 0)
        ⟨.ok (), 4, "upload.mp3", [1, 2, 3, 4, 5], none, QualityLevel.balanced,
          "cpu", TranscribeOutcome.ok "hi", false⟩ ⟨0, "small"⟩ []).1 =
      .error ⟨500, "Failed to process uploaded file"⟩ ∧
    "upload.mp3" ∈
      (transcribe_file (fun _ => .ok 0)
        ⟨.ok (), 4, "upload.mp3", [1, 2, 3, 4, 5], none, QualityLevel.balanced,
          "cpu", TranscribeOutcome.ok "hi", false⟩ ⟨0, "small"⟩ []).2.1 :=
  oversize_staging_masked_and_leaks _ _ _ _ rfl (by decide)

/-! ## C4: guaranteed temp-asset release by the orchestrator -/

/-- C4: once the temporary file is staged (validation passed, payload within
the ceiling, fresh path), the `finally` runs on every path: with a working
unlink the staged path is gone from the final filesystem; the request's
primary outcome is identical whether or not the unlink fails (a deletion
failure is swallowed by `_cleanup_temp_file` and never masks the primary
result); and that outcome is exactly the transcription body's result. -/
theorem temp_asset_always_released (loader : String → Except String Nat)
    (env : RequestEnv) (st : MgrState) (fs : List String)
    (hval : env.validateResult = .ok ())
    (hsize : env.content.length ≤ env.maxFileSize)
    (hfresh : env.tempPath ∉ fs) :
    (env.unlinkFails = false →
      env.tempPath ∉ (transcribe_file loader env st fs).2.1) ∧
    (∀ b : Bool,
      (transcribe_file loader { env with unlinkFails := b } st fs).1 =
        (transcribe_file loader env st fs).1) ∧
    (transcribe_file loader env st fs).1 =
      (match (perform_transcription env.device env.outcome).1 with
       | .error e => .error e
       | .ok raw => .ok (clean_text raw)) := by
  have h : ∀ fs' : List String,
      create_temp_file env.maxFileSize env.tempPath env.content fs' =
        (.ok env.tempPath, env.tempPath :: fs') := by
    intro fs'
    simp [create_temp_file, create_temp_file_body, Nat.not_lt.mpr hsize]
  refine ⟨?_, ?_, ?_⟩
  · intro hb
    simp only [transcribe_file, hval, h fs, cleanup_temp_file, hb]
    simp [List.erase_cons_head, hfresh]
  · intro b
    simp [transcribe_file, hval, h fs]
  · simp [transcribe_file, hval, h fs]

theorem temp_asset_released_witness :
    "upload.mp3" ∉
      (transcribe_file (fun _ => Except.ok 0)
        ⟨.ok (), 10, "upload.mp3", [1, 2, 3], none, QualityLevel.balanced,
          "cpu", TranscribeOutcome.failure "boom", false⟩ ⟨0, "small"⟩ []).2.1 :=
  (temp_asset_always_released _ _ _ _ rfl (by decide) (by simp)).1 rfl

/-! ## C8: trailing-repetition trim -/

theorem takeWhile_eq_replicate (lw : List Char) (l : List (List Char)) :
    l.takeWhile (fun x => x == lw) =
      List.replicate (l.takeWhile (fun x => x == lw)).length lw := by
  induction l with
  | nil => simp
  | cons w l ih =>
    by_cases h : (w == lw) = true
    · have hw : w = lw := by simpa using h
      rw [List.takeWhile_cons, if_pos h, hw]
      simp only [List.length_cons, List.replicate_succ]
      exact congrArg (List.cons lw) ih
    · rw [List.takeWhile_cons, if_neg h]
      simp

/-- A list with last element `lw` splits as a front part followed by the
maximal trailing run of `lw`, whose length is `trailingCount`; the run is
nonempty. -/
theorem trailing_run_decomp (ws : List (List Char)) (lw : List Char)
    (hlast : ws.getLast? = some lw) :
    ws = (ws.reverse.dropWhile (fun x => x == lw)).reverse ++
        List.replicate (trailingCount ws) lw ∧
    0 < trailingCount ws := by
  have hr : ws.reverse = List.replicate (trailingCount ws) lw ++
      ws.reverse.dropWhile (fun x => x == lw) := by
    unfold trailingCount
    rw [hlast]
    conv_lhs =>
      rw [← List.takeWhile_append_dropWhile (fun x => x == lw) ws.reverse]
    rw [takeWhile_eq_replicate]
  constructor
  · conv_lhs => rw [← List.reverse_reverse ws, hr]
    rw [List.reverse_append, List.reverse_replicate]
  · unfold trailingCount
    rw [hlast]
    dsimp only
    cases hrv : ws.reverse with
    | nil =>
      have h0 : ws = [] := by
        have := congrArg List.reverse hrv
        simpa using this
      rw [h0] at hlast
      cases hlast
    | cons x tl =>
      have hx : x = lw := by
        have h1 : ws.reverse.head? = some lw := by
          rw [List.head?_reverse, hlast]
        rw [hrv] at h1
        simpa using h1
      rw [List.takeWhile_cons, hx]
      simp

/-- Taking one more word than the front part picks exactly one copy of the
trailing word: `words[:-cnt+1]` equals the front part plus a single
occurrence of the last word. -/
theorem take_trailing_succ (ws : List (List Char)) (lw : List Char)
    (hlast : ws.getLast? = some lw) :
    ws.take (ws.length - trailingCount ws + 1) =
      ws.take (ws.length - trailingCount ws) ++ [lw] := by
  obtain ⟨hdecomp, hpos⟩ := trailing_run_decomp ws lw hlast
  set pre := (ws.reverse.dropWhile (fun x => x == lw)).reverse with hpre
  set cnt := trailingCount ws with hcnt
  have hlen : ws.length = pre.length + cnt := by
    conv_lhs => rw [hdecomp]
    simp
  have h1 : ws.length - cnt = pre.length := by omega
  rw [h1]
  conv_lhs => rw [hdecomp]
  conv_rhs => rw [hdecomp]
  rw [List.take_append, List.take_left]
  congr 1
  match cnt, hpos with
  | c + 1, _ =>
    rw [List.replicate_succ]
    rfl

/-- C8: `_remove_trailing_repetitions` returns a text of 4 or fewer words
unchanged; and when the text has more than 4 words whose last word repeats
more than 5 times consecutively at the end, the trim keeps the
non-repeating front plus exactly one occurrence of that word
(`words[:-repetition_count + 1]`). -/
theorem trailing_trim_spec (t : List Char) :
    ((splitWs (pyStrip t)).length ≤ 4 → remove_trailing_repetitions t = t) ∧
    (4 < (splitWs (pyStrip t)).length →
      5 < trailingCount (splitWs (pyStrip t)) →
      trimTrailingWords (splitWs (pyStrip t)) t =
        joinWords ((splitWs (pyStrip t)).take
            ((splitWs (pyStrip t)).length -
              trailingCount (splitWs (pyStrip t))) ++
          [(splitWs (pyStrip t)).getLastD []])) := by
  constructor
  · intro h
    unfold remove_trailing_repetitions
    rw [if_pos h]
  · intro h4 h5
    have hne : splitWs (pyStrip t) ≠ [] := by
      intro h0
      rw [h0] at h4
      simp at h4
    obtain ⟨lw, hlast⟩ : ∃ lw, (splitWs (pyStrip t)).getLast? = some lw := by
      cases hl : (splitWs (pyStrip t)).getLast? with
      | none => exact absurd (List.getLast?_eq_none_iff.mp hl) hne
      | some lw => exact ⟨lw, rfl⟩
    have hD : (splitWs (pyStrip t)).getLastD [] = lw := by
      rw [List.getLastD_eq_getLast?, hlast]
      rfl
    unfold trimTrailingWords
    rw [if_pos h5, hD, take_trailing_succ _ lw hlast]

theorem trailing_trim_witness :
    remove_trailing_repetitions ("a b c").data = ("a b c").data ∧
    trimTrailingWords (splitWs (pyStrip ("a b c d x x x x x x").data))
        ("a b c d x x x x x x").data =
      joinWords ((splitWs (pyStrip ("a b c d x x x x x x").data)).take
          ((splitWs (pyStrip ("a b c d x x x x x x").data)).length -
            trailingCount (splitWs (pyStrip ("a b c d x x x x x x").data))) ++
        [(splitWs (pyStrip ("a b c d x x x x x x").data)).getLastD []]) :=
  ⟨(trailing_trim_spec _).1 (by decide),
   (trailing_trim_spec _).2 (by decide) (by decide)⟩

/-! ## C6: credit-phrase removal -/

/-- C6 counterexample: the exact phrase "Subtitles created by the Amara.org
community" followed by further text is NOT removed — `clean_text` returns
the input unchanged, because the English credit pattern demands
"community", then "amara.org", then "qtss" after "subtitles created by",
an order the phrase does not satisfy. -/
theorem amara_phrase_not_removed_cex :
    clean_text "Subtitles created by the Amara.org community hello there friend" =
      "Subtitles created by the Amara.org community hello there friend" ∧
    "Subtitles created by the Amara.org community hello there friend" ≠
      "hello there friend" := by
  constructor
  · decide
  · decide

/-- C6 amended: `clean_text` removes the credit span only when "subtitles
created by" is followed, in order and case-insensitively, by "community",
"amara.org" and "qtss" (with an optional trailing dot); then the remaining
text is preserved.  The bare claimed phrase is left untouched (see the
counterexample). -/
theorem credit_removal_requires_qtss :
    clean_text "Subtitles created by the community amara.org qtss hello there friend" =
      "hello there friend" ∧
    clean_text "SUBTITLES CREATED BY the community amara.org QTSS. hello" =
      "hello" := by
  constructor
  · decide
  · decide

/-! ## C7: idempotence -/

/-- C7 counterexample: one cleaning pass can merge two short runs of "la"
(lengths 3 and 8, each individually below every per-pass threshold) into a
single run of 11 by deleting the "ab"-run between them; a second pass then
collapses that run, so `clean_text` is not idempotent. -/
theorem clean_text_not_idempotent_cex :
    clean_text (clean_text
        "la la la ab ab ab ab ab ab ab ab ab la la la la la la la la zz") ≠
      clean_text
        "la la la ab ab ab ab ab ab ab ab ab la la la la la la la la zz" := by
  decide

/-- C7 amended: a second application of `clean_text` is not the identity in
general, but it can only shrink the text further, never grow it. -/
theorem clean_text_second_pass_shrinks (s : String) :
    (clean_text (clean_text s)).length ≤ (clean_text s).length :=
  clean_text_length_le _

/-! ## C9: totality on falsy inputs -/

/-- C9: the embedding of `clean_text` is a total Lean function — every
operation the Python code performs (regular-expression substitution,
splitting, joining, stripping) is modelled by a total function, and the
only division in the source (the logging percentage) is guarded by
non-emptiness — and the falsy inputs `None` and `""` are returned
unchanged by the `if not text` guard. -/
theorem clean_text_total_on_falsy :
    clean_text_opt none = none ∧ clean_text_opt (some "") = some "" ∧
    clean_text "" = "" :=
  ⟨rfl, rfl, rfl⟩

/-! ## C10: output never longer than input -/

/-- C10: every cleaning pass only deletes or same-length-replaces
characters, so `clean_text` never lengthens its input and the logged
character reduction is non-negative. -/
theorem clean_text_never_lengthens (s : String) :
    (clean_text s).length ≤ s.length :=
  clean_text_length_le s

end LyricSync
